import Mathlib

/-!
Verification development for the quote-mvpp frontend
(`src/frontend/src/pages/StaffQuote.jsx` and related page sources).

The development shallow-embeds the pure parts of the code:

* JavaScript scalar values that flow through the pricing pipeline are
  modelled by `EstVal` (falsy value / numeric value / truthy non-numeric
  value) and `JsNum` (`Option ℚ`, where `none` stands for `NaN`).
  JavaScript numbers are modelled as rationals: the programs only ever
  combine finitely many user inputs with `Number(x || d)` coercions, so
  no floating-point rounding is relevant to the claims.
* String helpers (`trim`, regexp replaces, `split`, `includes`,
  `startsWith`, `toLowerCase`) are implemented on `List Char`, mirroring
  the character-wise behaviour of the JavaScript string methods used by
  the code (all dictionary keys and family keywords are ASCII).
* Each async submit handler is a pure function from its inputs and the
  outcomes of its network calls to the final component state together
  with the list of price-request bodies it issued.
* The submit-gating behaviour is a step function on an orchestrator
  state, with one event per UI click or network-call resolution.
-/

/-- A JavaScript number that may be `NaN`: `none` stands for `NaN`. -/
abbrev JsNum : Type := Option ℚ

/-- A JavaScript scalar as classified by the coercions the code applies:
`falsy` (0, `""`, `null`, `undefined`, `NaN`), a truthy value that
`Number` converts to the rational `q` (a non-zero number, or a numeric
string such as `"0"` or `"3"`), or a truthy value on which `Number`
yields `NaN` (e.g. a non-numeric string). -/
inductive EstVal
  | falsy
  | numv (q : ℚ)
  | nonNum
deriving DecidableEq

/-- `Number(v || 0)` applied to a raw JavaScript value `v`. -/
def evNum0 : EstVal → JsNum
  | .falsy => some 0
  | .numv q => some q
  | .nonNum => none

/-- `Number(v || 1)` applied to a raw JavaScript value `v`. -/
def evNum1 : EstVal → JsNum
  | .falsy => some 1
  | .numv q => some q
  | .nonNum => none

/-- Re-embed a computed JavaScript number into `EstVal`
(`NaN` and `0` are falsy; any other number is truthy). -/
def JsNum.toVal : JsNum → EstVal
  | none => .falsy
  | some q => if q = 0 then .falsy else .numv q

/-- The JavaScript number literal `q` as a raw value (`0` is falsy). -/
def EstVal.ofNum (q : ℚ) : EstVal :=
  if q = 0 then .falsy else .numv q

/-- `x > 0` in JavaScript, where `x` may be `NaN` (`NaN > 0` is false). -/
def jsGt0 : JsNum → Bool
  | none => false
  | some q => decide (0 < q)

/-- JavaScript multiplication on possibly-`NaN` numbers. -/
def jsMul : JsNum → JsNum → JsNum
  | some a, some b => some (a * b)
  | _, _ => none

/-! ## String helpers (character-level embedding of the JS string methods) -/

/-- Character-wise `toLowerCase` (all keys the code compares are ASCII). -/
def strToLower (s : String) : String :=
  String.mk (s.toList.map Char.toLower)

/-- `String.prototype.startsWith`. -/
def strStartsWith (s pre : String) : Bool :=
  pre.toList.isPrefixOf s.toList

/-- Does `sub` occur contiguously inside `cs`? -/
def hasSubstr (sub : List Char) : List Char → Bool
  | [] => sub.isEmpty
  | c :: rest => sub.isPrefixOf (c :: rest) || hasSubstr sub rest

/-- `String.prototype.includes`. -/
def jsIncludes (s sub : String) : Bool :=
  hasSubstr sub.toList s.toList

/-- Drop the leading run of characters satisfying `p` and the trailing
run of characters satisfying `p` (the effect of
`replace(/^X+|X+$/g, "")`, and of `trim` for whitespace). -/
def dropEdge (p : Char → Bool) (cs : List Char) : List Char :=
  ((cs.dropWhile p).reverse.dropWhile p).reverse

/-- Replace every maximal run of characters satisfying `p` with the
single character `rep` (the effect of `replace(/X+/g, " ")`).
The flag records whether the previous character was part of a run. -/
def collapseRunsAux (p : Char → Bool) (rep : Char) : Bool → List Char → List Char
  | _, [] => []
  | inRun, c :: cs =>
    if p c then
      if inRun then collapseRunsAux p rep true cs
      else rep :: collapseRunsAux p rep true cs
    else c :: collapseRunsAux p rep false cs

def collapseRuns (p : Char → Bool) (rep : Char) (cs : List Char) : List Char :=
  collapseRunsAux p rep false cs

/-- `String.prototype.split(" ")`: split on each single space character;
adjacent separators produce empty chunks, and the result is never empty. -/
def splitOnSpace : List Char → List (List Char)
  | [] => [[]]
  | c :: rest =>
    if c = ' ' then [] :: splitOnSpace rest
    else
      match splitOnSpace rest with
      | t :: ts => (c :: t) :: ts
      | [] => [[c]]

/-! ## Label Synthesizer (`TOKEN_MAP`, `COLOR_FA`, `prettifyKey`, `stripPrefix`) -/

/-- The `COLOR_FA` dictionary of `StaffQuote.jsx` (keys are lowercase). -/
def COLOR_FA (s : String) : Option String :=
  if s = "black" then some "مشکی"
  else if s = "white" then some "سفید"
  else if s = "gray" then some "خاکستری"
  else if s = "grey" then some "خاکستری"
  else if s = "red" then some "قرمز"
  else if s = "orange" then some "نارنجی"
  else if s = "blue" then some "آبی"
  else if s = "green" then some "سبز"
  else if s = "yellow" then some "زرد"
  else if s = "purple" then some "بنفش"
  else if s = "pink" then some "صورتی"
  else if s = "brown" then some "قهوه‌ای"
  else if s = "gold" then some "طلایی"
  else if s = "silver" then some "نقره‌ای"
  else none

/-- The `TOKEN_MAP` dictionary of `StaffQuote.jsx` (keys are lowercase). -/
def TOKEN_MAP (s : String) : Option String :=
  if s = "pla" then some "PLA"
  else if s = "petg" then some "PETG"
  else if s = "tpu" then some "TPU"
  else if s = "abs" then some "ABS"
  else if s = "asa" then some "ASA"
  else if s = "silk" then some "سیلک"
  else if s = "matte" then some "مات"
  else if s = "mate" then some "مات"
  else if s = "fast" then some "سریع"
  else if s = "transparent" then some "شفاف"
  else if s = "plus" then some "پلاس"
  else if s = "wood" then some "چوب"
  else if s = "pine" then some "کاج"
  else if s = "olive" then some "زیتونی"
  else if s = "lavender" then some "یاسی"
  else if s = "copper" then some "مسی"
  else if s = "coper" then some "مسی"
  else if s = "gp" then some "ساده"
  else none

/-- The token test `/^\d+[a-z]$/i`: one or more ASCII digits followed by
exactly one ASCII letter. -/
def isDigitLetterTok (t : List Char) : Bool :=
  match t.reverse with
  | [] => false
  | c :: rest => !rest.isEmpty && rest.all Char.isDigit && c.isAlpha

/-- The lowercased token used for the dictionary lookups. -/
def lowerTok (t : List Char) : String :=
  String.mk (t.map Char.toLower)

/-- The source dictionaries are plain object literals, and
`COLOR_FA[low]` / `TOKEN_MAP[low]` are property accesses, which also
traverse the prototype chain: when `low` names no authored key but does
name an `Object.prototype` member (such as `constructor`), the access
yields that inherited member, which is truthy (a function, or
`Object.prototype` itself for `__proto__`), so the code returns it and
the later `join(" ")` renders its engine-defined string form.  The
reachable member names and their string renderings are host facts, so
they are kept as a parameter of the embedding, like the locale
comparator: `keys` lists the property names found on the prototype
chain and `str` gives the string rendering of the inherited value named
by each key. -/
structure ProtoEnv where
  keys : List String
  str : String → String

/-- A representative standard browser environment: the
`Object.prototype` member names visible through bracket access on an
object literal, with the NativeFunction rendering
`function name() \x7b [native code] \x7d` that the major engines
produce (`constructor` is the function named `Object`; `__proto__` is
an accessor returning `Object.prototype`, rendered `[object Object]`). -/
def stdProtoEnv : ProtoEnv :=
  { keys := ["constructor", "hasOwnProperty", "isPrototypeOf",
      "propertyIsEnumerable", "toLocaleString", "toString", "valueOf",
      "__defineGetter__", "__defineSetter__", "__lookupGetter__",
      "__lookupSetter__", "__proto__"]
    str := fun s =>
      if s = "__proto__" then "[object Object]"
      else if s = "constructor" then "function Object() \x7b [native code] \x7d"
      else "function " ++ s ++ "() \x7b [native code] \x7d" }

/-- The truthiness-guarded property read `if (dict[s]) return dict[s]`
on an object literal whose authored entries are `dict` (all authored
values here are non-empty strings, hence truthy): an authored key
shadows the prototype chain; otherwise an `Object.prototype` member
named `s` is found and returned (it is truthy), and its eventual string
rendering is `env.str s`; otherwise the read is `undefined` (falsy) and
the code falls through. -/
def jsGet (env : ProtoEnv) (dict : String → Option String) (s : String) :
    Option (List Char) :=
  match dict s with
  | some v => some v.toList
  | none => if s ∈ env.keys then some (env.str s).toList else none

/-- The per-token mapping of `prettifyKey`: the truthiness-guarded
`COLOR_FA[low]` read first (authored colors, else prototype-chain
hits), then the `TOKEN_MAP[low]` read, then the `digits+letter`
uppercasing, else the token is kept unchanged. -/
def mapToken (env : ProtoEnv) (t : List Char) : List Char :=
  match jsGet env COLOR_FA (lowerTok t) with
  | some v => v
  | none =>
    match jsGet env TOKEN_MAP (lowerTok t) with
    | some v => v
    | none => if isDigitLetterTok t then t.map Char.toUpper else t

def isWSChar (c : Char) : Bool := c.isWhitespace

def isSepChar (c : Char) : Bool := c = '_' || c = '-'

/-- The `replace` chain of `prettifyKey` applied to the trimmed input:
strip leading/trailing underscore runs, collapse `_`/`-` runs to single
spaces, collapse whitespace runs to single spaces (the final `trim()` of
the source is applied separately in `prettifyKey`). -/
def normChars (raw : String) : List Char :=
  collapseRuns isWSChar ' '
    (collapseRuns isSepChar ' '
      (dropEdge (fun c => c = '_') (dropEdge isWSChar raw.toList)))

/-- `prettifyKey` of `StaffQuote.jsx` lines 872-904: trim; if empty,
return `""`; normalize separators (`normChars`); trim; split on spaces;
drop empty tokens; map each token by `mapToken` (in the ambient
prototype environment `env`); rejoin with spaces. -/
def prettifyKey (env : ProtoEnv) (raw : String) : String :=
  let s := dropEdge isWSChar raw.toList
  if s.isEmpty then ""
  else
    let normalized := dropEdge isWSChar (normChars raw)
    let parts := ((splitOnSpace normalized).filter (fun t => !t.isEmpty)).map (mapToken env)
    String.mk (List.intercalate [' '] parts)

/-- `stripPrefix(id, groupKey)` of `StaffQuote.jsx` lines 906-912:
if `id` is empty return `""`; if `groupKey` is truthy and
`id.toLowerCase()` starts with `(groupKey + "_").toLowerCase()`,
drop the first `groupKey.length + 1` characters; else return `id`. -/
def stripPrefix (id groupKey : String) : String :=
  if id = "" then ""
  else if groupKey ≠ "" &&
      strStartsWith (strToLower id) (strToLower (groupKey ++ "_")) then
    String.mk (id.toList.drop (groupKey.length + 1))
  else id

example : prettifyKey stdProtoEnv "pla_black" = "PLA مشکی" := by decide
example : prettifyKey stdProtoEnv "" = "" := by decide
example : prettifyKey stdProtoEnv "Matte lavender" = "مات یاسی" := by decide
example : prettifyKey stdProtoEnv "tpu_95a" = "TPU 95A" := by decide
example : prettifyKey stdProtoEnv "pla_constructor" =
    "PLA function Object() \x7b [native code] \x7d" := by decide
example : stripPrefix "pla_black" "pla" = "black" := by decide
example : stripPrefix "petgblack" "pla" = "petgblack" := by decide
example : stripPrefix "PLA_Black" "pla" = "Black" := by decide

/-! ## Catalog data model and the public projection
(`StaffQuote.jsx` lines 1090-1140, `groups` useMemo) -/

structure RawOpt where
  id : String
  title : Option String := none
  oname : Option String := none
deriving DecidableEq

structure RawGroup where
  group_id : String
  options : List RawOpt
deriving DecidableEq

/-- The three canonical public material families. -/
inductive Fam
  | pla
  | petg
  | tpu
deriving DecidableEq

def famKey : Fam → String
  | .pla => "pla"
  | .petg => "petg"
  | .tpu => "tpu"

/-- The classification of a lowercased group id
(`gid.includes("petg") ? "petg" : gid.includes("tpu") ? "tpu" :
gid.includes("pla") ? "pla" : null`). -/
def classifyGid (gid : String) : Option Fam :=
  if jsIncludes gid "petg" then some .petg
  else if jsIncludes gid "tpu" then some .tpu
  else if jsIncludes gid "pla" then some .pla
  else none

/-- Which family a raw group contributes to, or `none` when the group is
skipped (`!gid || gid.startsWith("+")`, or no keyword matches). -/
def groupFam (g : RawGroup) : Option Fam :=
  let gid := strToLower g.group_id
  if gid = "" || strStartsWith gid "+" then none
  else classifyGid gid

/-- The `addOpt` closure: state is the family's option list together
with the set of already-seen ids (the JS `Set` is modelled as the list
of ids in insertion order; `has` is membership). -/
def addOpt (st : List RawOpt × List String) (opt : RawOpt) : List RawOpt × List String :=
  let id := opt.id
  if id = "" || strStartsWith id "+" then st
  else if id ∈ st.2 then st
  else (st.1 ++ [opt], st.2 ++ [id])

/-- The option/seen state family `k` accumulates over the group loop.
In the source the loop threads one record holding the state of all
three families, but `addOpt key` only reads and writes the `key`
component, so the per-family state can be folded independently. -/
def buildFamSt (k : Fam) (gs : List RawGroup) : List RawOpt × List String :=
  gs.foldl
    (fun st g => if groupFam g = some k then g.options.foldl addOpt st else st)
    ([], [])

def buildFam (k : Fam) (gs : List RawGroup) : List RawOpt :=
  (buildFamSt k gs).1

/-- The sort key used at lines 1127-1137:
`prettifyKey(stripPrefix(o.id, family group_id))`, in the ambient
prototype environment. -/
def optKey (env : ProtoEnv) (k : Fam) (o : RawOpt) : String :=
  prettifyKey env (stripPrefix o.id (famKey k))

/-- The public catalog projection (`groups` useMemo): build the three
families, keep them in the fixed order `pla, petg, tpu`, drop empty
ones, and sort each family's options by `optKey` under the comparator
`cmp` (the source passes `localeCompare(..., "fa")`; `cmp` and the
prototype environment `env` are kept as parameters because locale
collation and `Object.prototype` rendering live in the browser). -/
def project (env : ProtoEnv) (cmp : String → String → Int) (gs : List RawGroup) :
    List (Fam × List RawOpt) :=
  let out := ([Fam.pla, Fam.petg, Fam.tpu].map (fun k => (k, buildFam k gs))).filter
    (fun p => !p.2.isEmpty)
  out.map (fun p =>
    (p.1, p.2.mergeSort (fun a b => cmp (optKey env p.1 a) (optKey env p.1 b) ≤ 0)))

/-- Modelled from the spec (§4.2): first-occurrence-wins deduplication
by id, skipping ids already in `seen`. -/
def firstWinsFrom (seen : List String) : List RawOpt → List RawOpt
  | [] => []
  | o :: rest =>
    if o.id ∈ seen then firstWinsFrom seen rest
    else o :: firstWinsFrom (seen ++ [o.id]) rest

/-- Modelled from the spec (§4.2): deduplicate by id, first wins. -/
def dedupFirstById (l : List RawOpt) : List RawOpt :=
  firstWinsFrom [] l

/-- Is an individual option kept (id non-empty and not `+`-prefixed)? -/
def optOk (o : RawOpt) : Bool :=
  !(o.id = "" || strStartsWith o.id "+")

/-- All kept options of all groups classified into family `k`, in
traversal order (before deduplication). -/
def collectFam (k : Fam) (gs : List RawGroup) : List RawOpt :=
  (gs.filter (fun g => groupFam g = some k)).flatMap
    (fun g => g.options.filter optOk)

/-! ## Pricing pipeline -/

/-- `StaffQuote.jsx` line 824. -/
def DEFAULT_PUBLIC_MACHINE_ID : String := "anycubic_kobra_s1_combo"

/-- The JSON body of a `POST quote` / `POST staff/quote` request.
Numeric fields are `JsNum` so that a `NaN` produced by a coercion is
representable. -/
structure QuoteBody where
  material_id : String
  machine_id : String
  qty : JsNum
  filament_grams : JsNum
  print_time_minutes : JsNum
  post_pro_hours : JsNum
  extras : JsNum
deriving DecidableEq

/-- The estimate response fields as decoded JavaScript values. -/
structure EstResp where
  estimated_grams : EstVal
  estimated_minutes : EstVal
deriving DecidableEq

/-- `setErr` on a caught exception: both pages surface
`e?.message || String(e)` (or `String(e?.message || e)`), so an
empty thrown message surfaces as the string `"Error"`. -/
def surfaceErr (msg : String) : String :=
  if msg = "" then "Error" else msg

/-- The body built by the public `quote({gramsPerOne, minutesPerOne,
qtyVal = 1})` helper (`StaffQuote.jsx` lines 1262-1280). -/
def quoteBody (materialId : String) (gramsPerOne minutesPerOne qtyVal : EstVal) : QuoteBody :=
  { material_id := materialId
    machine_id := DEFAULT_PUBLIC_MACHINE_ID
    qty := evNum1 qtyVal
    filament_grams := evNum0 gramsPerOne
    print_time_minutes := evNum0 minutesPerOne
    post_pro_hours := some 0
    extras := some 0 }

/-- The body built by `staffQuote({q, gramsPerOne, minutesPerOne,
postHours, extraT})` (`StaffQuote.jsx` lines 118-140). -/
def staffQuoteBody (materialId machineId : String)
    (q gramsPerOne minutesPerOne postHours extraT : EstVal) : QuoteBody :=
  { material_id := materialId
    machine_id := machineId
    qty := evNum1 q
    filament_grams := evNum0 gramsPerOne
    print_time_minutes := evNum0 minutesPerOne
    post_pro_hours := evNum0 postHours
    extras := evNum0 extraT }

/-- Observable result state of a public submit handler run. -/
structure PubRunState where
  err : String
  total : Option ℚ
  progress : ℕ
  loading : Bool
deriving DecidableEq

/-- The message thrown by `calcUpload` when the estimate is unusable. -/
def estFailMsg : String :=
  "نتونستم وزن/زمان فایل رو تخمین بزنم. لطفاً فایل دیگه‌ای امتحان کنید."

/-- The message thrown by `calcManual` on invalid manual inputs. -/
def manualFailMsg : String :=
  "لطفاً وزن (گرم)، زمان (دقیقه) و تعداد را درست وارد کنید."

/-- The public upload handler `calcUpload` (`StaffQuote.jsx` lines
1282-1308) as a function of the estimate outcome and a price oracle.
The second component lists the price-request bodies issued. -/
def calcUpload (materialId : String) (estR : Except String EstResp)
    (quoteR : QuoteBody → Except String (Option ℚ)) : PubRunState × List QuoteBody :=
  match estR with
  | .error e => (⟨surfaceErr e, none, 0, false⟩, [])
  | .ok est =>
    let g1 := evNum0 est.estimated_grams
    let m1 := evNum0 est.estimated_minutes
    if !jsGt0 g1 || !jsGt0 m1 then
      (⟨surfaceErr estFailMsg, none, 0, false⟩, [])
    else
      let body := quoteBody materialId g1.toVal m1.toVal (.numv 1)
      match quoteR body with
      | .error e => (⟨surfaceErr e, none, 0, false⟩, [body])
      | .ok t => (⟨"", t, 100, false⟩, [body])

/-- The public manual handler `calcManual` (`StaffQuote.jsx` lines
1310-1334). -/
def calcManual (materialId : String) (grams minutes qtyv : EstVal)
    (quoteR : QuoteBody → Except String (Option ℚ)) : PubRunState × List QuoteBody :=
  let g := evNum0 grams
  let m := evNum0 minutes
  let q := evNum1 qtyv
  if !jsGt0 g || !jsGt0 m || !jsGt0 q then
    (⟨surfaceErr manualFailMsg, none, 0, false⟩, [])
  else
    let body := quoteBody materialId g.toVal m.toVal q.toVal
    match quoteR body with
    | .error e => (⟨surfaceErr e, none, 0, false⟩, [body])
    | .ok t => (⟨"", t, 100, false⟩, [body])

/-- Observable result state of a staff upload run. -/
structure StaffRunState where
  err : String
  total : Option ℚ
  progress : ℕ
  estGrams : Option JsNum
  estMinutes : Option JsNum
  loading : Bool
deriving DecidableEq

/-- The staff upload handler `estimateAndCalcUpload` (`StaffQuote.jsx`
lines 180-216): no positivity guard on the estimate; the price request
is issued with the coerced per-unit values and the raw `upQty`. -/
def estimateAndCalcUpload (materialId machineId : String) (upQty : EstVal)
    (estR : Except String EstResp)
    (quoteR : QuoteBody → Except String (Option ℚ)) : StaffRunState × List QuoteBody :=
  match estR with
  | .error e => (⟨surfaceErr e, none, 0, none, none, false⟩, [])
  | .ok est =>
    let g1 := evNum0 est.estimated_grams
    let m1 := evNum0 est.estimated_minutes
    let body := staffQuoteBody materialId machineId upQty g1.toVal m1.toVal
      (EstVal.ofNum 0) (EstVal.ofNum 0)
    match quoteR body with
    | .error e => (⟨surfaceErr e, none, 0, some g1, some m1, false⟩, [body])
    | .ok t => (⟨"", t, 100, some g1, some m1, false⟩, [body])

/-- The aggregate grams hint displayed on the staff page (line 405):
`estGrams * Number(upQty || 1)` — display only. -/
def staffAggGrams (estG : JsNum) (upQty : EstVal) : JsNum :=
  jsMul estG (evNum1 upQty)

/-- The aggregate minutes hint displayed on the staff page (line 404):
`estMinutes * Number(upQty || 1)` — display only. -/
def staffAggMinutes (estM : JsNum) (upQty : EstVal) : JsNum :=
  jsMul estM (evNum1 upQty)

/-! ## Selection Widget (`CSelect`, `StaffQuote.jsx` lines 915-1052) -/

structure SelOpt where
  value : String
  label : String
deriving DecidableEq

/-- `options.findIndex((o) => String(o.value) === String(value))`
(`-1` when no option matches). -/
def jsFindIndex (options : List SelOpt) (value : String) : Int :=
  match options.findIdx? (fun o => o.value == value) with
  | some i => (i : Int)
  | none => -1

/-- The highlight initialisation performed when the menu opens
(lines 981-983). -/
def initHighlight (options : List SelOpt) (value : String) : Int :=
  jsFindIndex options value

structure SelState where
  isOpen : Bool
  highlight : Int
deriving DecidableEq

inductive SelKey
  | arrowDown
  | arrowUp
  | enter
  | escape
  | other
deriving DecidableEq

/-- Result of one keydown: new widget state, the committed value (if
`onChange` fired, always a string), and whether focus returned to the
trigger button. -/
structure KeyOut where
  st : SelState
  committed : Option String
  focusTrigger : Bool
deriving DecidableEq

/-- The `onKey` handler (lines 956-978). -/
def onKey (options : List SelOpt) (value : String) (s : SelState) (k : SelKey) : KeyOut :=
  if !s.isOpen then ⟨s, none, false⟩
  else
    match k with
    | .escape => ⟨⟨false, s.highlight⟩, none, true⟩
    | .arrowDown =>
      let maxI : Int := (options.length : Int) - 1
      let base : Int :=
        if s.highlight < 0 then max 0 (jsFindIndex options value) else s.highlight
      ⟨⟨s.isOpen, if base ≥ maxI then 0 else base + 1⟩, none, false⟩
    | .arrowUp =>
      let maxI : Int := (options.length : Int) - 1
      let base : Int :=
        if s.highlight < 0 then max 0 (jsFindIndex options value) else s.highlight
      ⟨⟨s.isOpen, if base ≤ 0 then maxI else base - 1⟩, none, false⟩
    | .enter =>
      if 0 ≤ s.highlight then
        match options[s.highlight.toNat]? with
        | some o => ⟨⟨false, s.highlight⟩, some o.value, true⟩
        | none => ⟨s, none, false⟩
      else ⟨s, none, false⟩
    | .other => ⟨s, none, false⟩

/-! ## Submit gating (`disabled={!canSubmit || loading}`, lines 1473-1480)

One public page instance is modelled as a transition system.  A click
event carries the instantaneous value of the input-validity part of
`canSubmit`; a click on a disabled control is a no-op.  The pending
list records the network calls currently in flight, in issue order;
the synchronous prefix of each handler (up to its first `await`) runs
atomically in a step, matching the cooperative single-threaded event
model of the page. -/

inductive PendReq
  | est
  | quo
deriving DecidableEq

inductive OEvent
  /-- Submit click on the upload tab; `en` is the input-validity part
  of `canSubmit` at click time. -/
  | clickUpload (en : Bool)
  /-- Submit click on the manual tab; `valid` is the
  `g > 0 && m > 0 && q > 0` guard inside `calcManual`. -/
  | clickManual (en valid : Bool)
  /-- The outstanding estimate call resolves; `succ` is HTTP success
  and `gok` the `g1 > 0 && m1 > 0` guard. -/
  | estDone (succ gok : Bool)
  /-- The outstanding price call resolves. -/
  | quoDone (succ : Bool)
deriving DecidableEq

structure OState where
  loading : Bool
  pend : List PendReq
deriving DecidableEq

def oInit : OState := ⟨false, []⟩

def ostep (s : OState) (e : OEvent) : OState :=
  match e with
  | .clickUpload en =>
    if !en || s.loading then s
    else ⟨true, s.pend ++ [.est]⟩
  | .clickManual en valid =>
    if !en || s.loading then s
    else if valid then ⟨true, s.pend ++ [.quo]⟩
    else s
  | .estDone succ gok =>
    match s.pend with
    | .est :: rest =>
      if succ && gok then ⟨s.loading, rest ++ [.quo]⟩
      else ⟨false, rest⟩
    | _ => s
  | .quoDone _ =>
    match s.pend with
    | .quo :: rest => ⟨false, rest⟩
    | _ => s

def orun (evs : List OEvent) : OState :=
  evs.foldl ostep oInit

/-! ## Staff page state and the clear action (`StaffQuote.jsx` lines 368-381) -/

structure StaffPageState where
  tab : String
  groupId : String
  materialId : String
  machineId : String
  qty : EstVal
  grams : EstVal
  minutes : EstVal
  postProHours : EstVal
  extras : EstVal
  upQty : EstVal
  file : Option String
  quality : String
  progress : ℕ
  estGrams : Option JsNum
  estMinutes : Option JsNum
  total : Option ℚ
  err : String
  loading : Bool

/-- The clear-result button handler: `setTotal(null); setErr("");
setProgress(0); setEstGrams(null); setEstMinutes(null)`. -/
def clearResult (s : StaffPageState) : StaffPageState :=
  { s with
    total := none
    err := ""
    progress := 0
    estGrams := none
    estMinutes := none }

/-! ## Spec-side synthesizer (for the refinement claim about `prettifyKey`) -/

/-- The space-separated tokens of the normalized input (shared by the
code-side and spec-side pipelines; the code-side extra final trim is
proved not to change this list). -/
def specTokens (raw : String) : List (List Char) :=
  (splitOnSpace (normChars raw)).filter (fun t => !t.isEmpty)

/-- Modelled from the spec (§4.1, §4.2 token precedence): exact
case-insensitive match in the color dictionary, else in the
descriptor/polymer dictionary, else digits+letter uppercased, else the
token passes through unchanged — with no prototype-chain hits. -/
def specMapToken (t : List Char) : List Char :=
  match COLOR_FA (lowerTok t) with
  | some fa => fa.toList
  | none =>
    match TOKEN_MAP (lowerTok t) with
    | some w => w.toList
    | none => if isDigitLetterTok t then t.map Char.toUpper else t

/-- Modelled from the spec (§4.1): trim; strip leading/trailing
underscores; collapse `_`/`-` runs to single spaces; collapse
whitespace; split into space-separated tokens; map each token by the
dictionary precedence; rejoin with single spaces. -/
def synthesizeSpec (raw : String) : String :=
  String.mk (List.intercalate [' '] ((specTokens raw).map specMapToken))

/-! ## Helper lemmas -/

lemma strToLower_toList (s : String) :
    (strToLower s).toList = s.toList.map Char.toLower := rfl

lemma strStartsWith_empty_left {pre : String} (h : pre.toList ≠ []) :
    strStartsWith "" pre = false := by
  unfold strStartsWith
  obtain ⟨c, t, hct⟩ := List.exists_cons_of_ne_nil h
  rw [hct]
  rfl

lemma key_underscore_toList_ne_nil (key : String) :
    (strToLower (key ++ "_")).toList ≠ [] := by
  rw [strToLower_toList]
  intro h
  have := congrArg List.length h
  simp [String.toList] at this

/-! ## C7 -/

/-- C7 counterexample: with an empty `familyKey`, the id `"_x"` does
case-insensitively start with `familyKey + "_"` (that is, with `"_"`),
yet `stripPrefix` returns the id unchanged instead of removing the
underscore, so the claimed characterisation fails at
`(id, familyKey) = ("_x", "")`. -/
theorem C7_counterexample :
    strStartsWith (strToLower "_x") (strToLower ("" ++ "_")) = true ∧
    stripPrefix "_x" "" = "_x" ∧ stripPrefix "_x" "" ≠ "x" := by decide

/-- C7 (amended): for a NON-EMPTY `familyKey`, `stripPrefix id familyKey`
removes the leading `familyKey` plus underscore exactly when `id`
case-insensitively starts with `familyKey + "_"`, and returns `id`
unchanged otherwise; in particular
`stripPrefix "pla_black" "pla" = "black"` and
`stripPrefix "petgblack" "pla" = "petgblack"`. -/
theorem C7_stripPrefix_spec (id key : String) (hkey : key ≠ "") :
    (strStartsWith (strToLower id) (strToLower (key ++ "_")) = true →
      stripPrefix id key = String.mk (id.toList.drop (key.length + 1))) ∧
    (strStartsWith (strToLower id) (strToLower (key ++ "_")) = false →
      stripPrefix id key = id) ∧
    stripPrefix "pla_black" "pla" = "black" ∧
    stripPrefix "petgblack" "pla" = "petgblack" := by
  refine ⟨?_, ?_, by decide, by decide⟩
  · intro h
    by_cases hid : id = ""
    · subst hid
      have h2 : strStartsWith "" (strToLower (key ++ "_")) = true := h
      rw [strStartsWith_empty_left (key_underscore_toList_ne_nil key)] at h2
      exact absurd h2 (by simp)
    · simp [stripPrefix, hid, hkey, h]
  · intro h
    by_cases hid : id = ""
    · subst hid
      simp [stripPrefix]
    · simp [stripPrefix, hid, hkey, h]

/-- C7 witness: the amended theorem applied at concrete inputs. -/
theorem C7_witness :
    stripPrefix "PLA_black" "pla" = "black" ∧
    stripPrefix "petgblack" "pla" = "petgblack" :=
  ⟨((C7_stripPrefix_spec "PLA_black" "pla" (by decide)).1 (by decide)).trans (by decide),
   (C7_stripPrefix_spec "petgblack" "pla" (by decide)).2.1 (by decide)⟩

/-! ## C10 -/

/-- C10: the staff clear action resets exactly the result state
(`total`, `err`, `progress`, `estGrams`, `estMinutes`) and leaves the
selected group, material, machine, tab, quantities, manual inputs and
the selected file unchanged. -/
theorem C10_clearResult_frame (s : StaffPageState) :
    (clearResult s).total = none ∧ (clearResult s).err = "" ∧
    (clearResult s).progress = 0 ∧ (clearResult s).estGrams = none ∧
    (clearResult s).estMinutes = none ∧
    (clearResult s).tab = s.tab ∧ (clearResult s).groupId = s.groupId ∧
    (clearResult s).materialId = s.materialId ∧
    (clearResult s).machineId = s.machineId ∧
    (clearResult s).qty = s.qty ∧ (clearResult s).grams = s.grams ∧
    (clearResult s).minutes = s.minutes ∧
    (clearResult s).postProHours = s.postProHours ∧
    (clearResult s).extras = s.extras ∧ (clearResult s).upQty = s.upQty ∧
    (clearResult s).file = s.file ∧ (clearResult s).quality = s.quality ∧
    (clearResult s).loading = s.loading :=
  ⟨rfl, rfl, rfl, rfl, rfl, rfl, rfl, rfl, rfl, rfl, rfl, rfl, rfl, rfl, rfl,
   rfl, rfl, rfl⟩

/-! ## Equation lemmas for the submit handlers -/

lemma calcUpload_estErr (materialId : String) (e : String)
    (quoteR : QuoteBody → Except String (Option ℚ)) :
    calcUpload materialId (.error e) quoteR = (⟨surfaceErr e, none, 0, false⟩, []) := rfl

lemma calcUpload_guardFail (materialId : String) (est : EstResp)
    (quoteR : QuoteBody → Except String (Option ℚ))
    (h : (!jsGt0 (evNum0 est.estimated_grams) || !jsGt0 (evNum0 est.estimated_minutes)) = true) :
    calcUpload materialId (.ok est) quoteR = (⟨surfaceErr estFailMsg, none, 0, false⟩, []) := by
  simp only [calcUpload, h]
  rfl

lemma calcUpload_quoteOk (materialId : String) (est : EstResp)
    (quoteR : QuoteBody → Except String (Option ℚ)) (t : Option ℚ)
    (h : (!jsGt0 (evNum0 est.estimated_grams) || !jsGt0 (evNum0 est.estimated_minutes)) = false)
    (hq : quoteR (quoteBody materialId (evNum0 est.estimated_grams).toVal
        (evNum0 est.estimated_minutes).toVal (.numv 1)) = .ok t) :
    calcUpload materialId (.ok est) quoteR =
      (⟨"", t, 100, false⟩,
       [quoteBody materialId (evNum0 est.estimated_grams).toVal
          (evNum0 est.estimated_minutes).toVal (.numv 1)]) := by
  simp only [calcUpload, h, hq]
  rfl

lemma calcUpload_quoteErr (materialId : String) (est : EstResp)
    (quoteR : QuoteBody → Except String (Option ℚ)) (e : String)
    (h : (!jsGt0 (evNum0 est.estimated_grams) || !jsGt0 (evNum0 est.estimated_minutes)) = false)
    (hq : quoteR (quoteBody materialId (evNum0 est.estimated_grams).toVal
        (evNum0 est.estimated_minutes).toVal (.numv 1)) = .error e) :
    calcUpload materialId (.ok est) quoteR =
      (⟨surfaceErr e, none, 0, false⟩,
       [quoteBody materialId (evNum0 est.estimated_grams).toVal
          (evNum0 est.estimated_minutes).toVal (.numv 1)]) := by
  simp only [calcUpload, h, hq]
  rfl

lemma calcManual_guardFail (materialId : String) (grams minutes qtyv : EstVal)
    (quoteR : QuoteBody → Except String (Option ℚ))
    (h : (!jsGt0 (evNum0 grams) || !jsGt0 (evNum0 minutes) || !jsGt0 (evNum1 qtyv)) = true) :
    calcManual materialId grams minutes qtyv quoteR =
      (⟨surfaceErr manualFailMsg, none, 0, false⟩, []) := by
  simp only [calcManual, h]
  rfl

lemma calcManual_quoteOk (materialId : String) (grams minutes qtyv : EstVal)
    (quoteR : QuoteBody → Except String (Option ℚ)) (t : Option ℚ)
    (h : (!jsGt0 (evNum0 grams) || !jsGt0 (evNum0 minutes) || !jsGt0 (evNum1 qtyv)) = false)
    (hq : quoteR (quoteBody materialId (evNum0 grams).toVal (evNum0 minutes).toVal
        (evNum1 qtyv).toVal) = .ok t) :
    calcManual materialId grams minutes qtyv quoteR =
      (⟨"", t, 100, false⟩,
       [quoteBody materialId (evNum0 grams).toVal (evNum0 minutes).toVal (evNum1 qtyv).toVal]) := by
  simp only [calcManual, h, hq]
  rfl

lemma calcManual_quoteErr (materialId : String) (grams minutes qtyv : EstVal)
    (quoteR : QuoteBody → Except String (Option ℚ)) (e : String)
    (h : (!jsGt0 (evNum0 grams) || !jsGt0 (evNum0 minutes) || !jsGt0 (evNum1 qtyv)) = false)
    (hq : quoteR (quoteBody materialId (evNum0 grams).toVal (evNum0 minutes).toVal
        (evNum1 qtyv).toVal) = .error e) :
    calcManual materialId grams minutes qtyv quoteR =
      (⟨surfaceErr e, none, 0, false⟩,
       [quoteBody materialId (evNum0 grams).toVal (evNum0 minutes).toVal (evNum1 qtyv).toVal]) := by
  simp only [calcManual, h, hq]
  rfl

lemma staffUpload_estErr (materialId machineId : String) (upQty : EstVal) (e : String)
    (quoteR : QuoteBody → Except String (Option ℚ)) :
    estimateAndCalcUpload materialId machineId upQty (.error e) quoteR =
      (⟨surfaceErr e, none, 0, none, none, false⟩, []) := rfl

lemma staffUpload_quoteOk (materialId machineId : String) (upQty : EstVal) (est : EstResp)
    (quoteR : QuoteBody → Except String (Option ℚ)) (t : Option ℚ)
    (hq : quoteR (staffQuoteBody materialId machineId upQty
        (evNum0 est.estimated_grams).toVal (evNum0 est.estimated_minutes).toVal
        (EstVal.ofNum 0) (EstVal.ofNum 0)) = .ok t) :
    estimateAndCalcUpload materialId machineId upQty (.ok est) quoteR =
      (⟨"", t, 100, some (evNum0 est.estimated_grams), some (evNum0 est.estimated_minutes), false⟩,
       [staffQuoteBody materialId machineId upQty
          (evNum0 est.estimated_grams).toVal (evNum0 est.estimated_minutes).toVal
          (EstVal.ofNum 0) (EstVal.ofNum 0)]) := by
  simp only [estimateAndCalcUpload, hq]

lemma staffUpload_quoteErr (materialId machineId : String) (upQty : EstVal) (est : EstResp)
    (quoteR : QuoteBody → Except String (Option ℚ)) (e : String)
    (hq : quoteR (staffQuoteBody materialId machineId upQty
        (evNum0 est.estimated_grams).toVal (evNum0 est.estimated_minutes).toVal
        (EstVal.ofNum 0) (EstVal.ofNum 0)) = .error e) :
    estimateAndCalcUpload materialId machineId upQty (.ok est) quoteR =
      (⟨surfaceErr e, none, 0, some (evNum0 est.estimated_grams),
        some (evNum0 est.estimated_minutes), false⟩,
       [staffQuoteBody materialId machineId upQty
          (evNum0 est.estimated_grams).toVal (evNum0 est.estimated_minutes).toVal
          (EstVal.ofNum 0) (EstVal.ofNum 0)]) := by
  simp only [estimateAndCalcUpload, hq]

/-! ## C9 -/

/-- C9: every price request a public page handler issues carries the
fixed machine id `anycubic_kobra_s1_combo`, `post_pro_hours = 0` and
`extras = 0` (the public page has no machine input; its `quote` helper
hard-codes these fields). -/
theorem C9_public_machine_fixed :
    (∀ (materialId : String) (estR : Except String EstResp)
        (quoteR : QuoteBody → Except String (Option ℚ)),
      ∀ b ∈ (calcUpload materialId estR quoteR).2,
        b.machine_id = DEFAULT_PUBLIC_MACHINE_ID ∧
        b.post_pro_hours = some 0 ∧ b.extras = some 0) ∧
    (∀ (materialId : String) (grams minutes qtyv : EstVal)
        (quoteR : QuoteBody → Except String (Option ℚ)),
      ∀ b ∈ (calcManual materialId grams minutes qtyv quoteR).2,
        b.machine_id = DEFAULT_PUBLIC_MACHINE_ID ∧
        b.post_pro_hours = some 0 ∧ b.extras = some 0) := by
  constructor
  · intro materialId estR quoteR b hb
    cases estR with
    | error e => rw [calcUpload_estErr] at hb; simp at hb
    | ok est =>
      by_cases h : (!jsGt0 (evNum0 est.estimated_grams) ||
          !jsGt0 (evNum0 est.estimated_minutes)) = true
      · rw [calcUpload_guardFail materialId est quoteR h] at hb
        simp at hb
      · rw [Bool.not_eq_true] at h
        cases hq : quoteR (quoteBody materialId (evNum0 est.estimated_grams).toVal
            (evNum0 est.estimated_minutes).toVal (.numv 1)) with
        | error e =>
          rw [calcUpload_quoteErr materialId est quoteR e h hq] at hb
          simp at hb
          subst hb
          exact ⟨rfl, rfl, rfl⟩
        | ok t =>
          rw [calcUpload_quoteOk materialId est quoteR t h hq] at hb
          simp at hb
          subst hb
          exact ⟨rfl, rfl, rfl⟩
  · intro materialId grams minutes qtyv quoteR b hb
    by_cases h : (!jsGt0 (evNum0 grams) || !jsGt0 (evNum0 minutes) ||
        !jsGt0 (evNum1 qtyv)) = true
    · rw [calcManual_guardFail materialId grams minutes qtyv quoteR h] at hb
      simp at hb
    · rw [Bool.not_eq_true] at h
      cases hq : quoteR (quoteBody materialId (evNum0 grams).toVal (evNum0 minutes).toVal
          (evNum1 qtyv).toVal) with
      | error e =>
        rw [calcManual_quoteErr materialId grams minutes qtyv quoteR e h hq] at hb
        simp at hb
        subst hb
        exact ⟨rfl, rfl, rfl⟩
      | ok t =>
        rw [calcManual_quoteOk materialId grams minutes qtyv quoteR t h hq] at hb
        simp at hb
        subst hb
        exact ⟨rfl, rfl, rfl⟩

/-- C9 witness: a concrete public upload run issues exactly its one
request with the fixed machine id and zero extras. -/
theorem C9_witness :
    quoteBody "pla_black" (JsNum.toVal (some 50)) (JsNum.toVal (some 90)) (.numv 1) ∈
      (calcUpload "pla_black" (.ok ⟨.numv 50, .numv 90⟩) (fun _ => .ok (some 100))).2 ∧
    (quoteBody "pla_black" (JsNum.toVal (some 50)) (JsNum.toVal (some 90)) (.numv 1)).machine_id =
      DEFAULT_PUBLIC_MACHINE_ID :=
  ⟨by decide,
   (C9_public_machine_fixed.1 "pla_black" (.ok ⟨.numv 50, .numv 90⟩)
      (fun _ => .ok (some 100)) _ (by decide)).1⟩

lemma evNum0_toVal (x : JsNum) : evNum0 x.toVal = some (x.getD 0) := by
  cases x with
  | none => rfl
  | some q =>
    by_cases hq : q = 0
    · subst hq; rfl
    · simp [JsNum.toVal, hq, evNum0]

lemma evNum0_falsy : evNum0 .falsy = some 0 := rfl

lemma evNum0_numv (q : ℚ) : evNum0 (.numv q) = some q := rfl

lemma evNum1_numv (q : ℚ) : evNum1 (.numv q) = some q := rfl

/-! ## C1 -/

/-- C1 counterexample: on the STAFF upload path, an estimate response
with `estimated_grams: 0` does not abort the pipeline — a price request
is still issued (with `filament_grams = 0`), contradicting the claim
that no price request is ever issued on either upload path. -/
theorem C1_counterexample :
    (estimateAndCalcUpload "pla_black" "machine1" (.numv 3)
        (.ok ⟨.falsy, .numv 90⟩) (fun _ => .ok (some 100))).2 =
      [⟨"pla_black", "machine1", some 3, some 0, some 90, some 0, some 0⟩] := by
  decide

/-- C1 (amended): on the PUBLIC upload path, an estimate whose coerced
grams or minutes are not `> 0` (including missing or non-numeric values)
leaves the session failed — progress `0`, a non-empty error, no total —
and no price request is issued; the STAFF upload path performs no such
check and issues exactly one price request for every successful estimate
response. -/
theorem C1_public_guard (materialId : String) (est : EstResp)
    (quoteR : QuoteBody → Except String (Option ℚ))
    (h : jsGt0 (evNum0 est.estimated_grams) = false ∨
         jsGt0 (evNum0 est.estimated_minutes) = false) :
    (calcUpload materialId (.ok est) quoteR).1.progress = 0 ∧
    (calcUpload materialId (.ok est) quoteR).1.err ≠ "" ∧
    (calcUpload materialId (.ok est) quoteR).1.total = none ∧
    (calcUpload materialId (.ok est) quoteR).2 = [] ∧
    (∀ (machineId : String) (upQty : EstVal),
      ((estimateAndCalcUpload materialId machineId upQty (.ok est) quoteR).2).length = 1) := by
  have hb : (!jsGt0 (evNum0 est.estimated_grams) ||
      !jsGt0 (evNum0 est.estimated_minutes)) = true := by
    rcases h with h | h <;> simp [h]
  rw [calcUpload_guardFail materialId est quoteR hb]
  refine ⟨rfl, by decide, rfl, rfl, ?_⟩
  intro machineId upQty
  cases hq : quoteR (staffQuoteBody materialId machineId upQty
      (evNum0 est.estimated_grams).toVal (evNum0 est.estimated_minutes).toVal
      (EstVal.ofNum 0) (EstVal.ofNum 0)) with
  | error e =>
    rw [staffUpload_quoteErr materialId machineId upQty est quoteR e hq]
    rfl
  | ok t =>
    rw [staffUpload_quoteOk materialId machineId upQty est quoteR t hq]
    rfl

/-- C1 witness: the amended theorem applied to a concrete zero-gram
estimate response. -/
theorem C1_witness :
    (calcUpload "pla_black" (.ok ⟨.falsy, .numv 90⟩) (fun _ => .ok (some 100))).2 = [] ∧
    ((estimateAndCalcUpload "pla_black" "machine1" (.numv 3)
        (.ok ⟨.falsy, .numv 90⟩) (fun _ => .ok (some 100))).2).length = 1 :=
  ⟨(C1_public_guard "pla_black" ⟨.falsy, .numv 90⟩ (fun _ => .ok (some 100))
      (Or.inl (by decide))).2.2.2.1,
   (C1_public_guard "pla_black" ⟨.falsy, .numv 90⟩ (fun _ => .ok (some 100))
      (Or.inl (by decide))).2.2.2.2 "machine1" (.numv 3)⟩

/-! ## C2 -/

/-- C2: quantity semantics of the upload paths.  For a successful
numeric estimate, the staff upload path issues exactly one price
request carrying the per-unit estimated grams and minutes unscaled
together with the user-entered quantity, while the displayed aggregates
are the per-unit values times the quantity; the public upload path
sends the per-unit values with quantity always `1`. -/
theorem C2_upload_quantity_semantics :
    (∀ (materialId machineId : String) (q g m : ℚ)
        (quoteR : QuoteBody → Except String (Option ℚ)),
      (estimateAndCalcUpload materialId machineId (.numv q)
          (.ok ⟨.numv g, .numv m⟩) quoteR).2 =
        [⟨materialId, machineId, some q, some g, some m, some 0, some 0⟩] ∧
      staffAggGrams (some g) (.numv q) = some (g * q) ∧
      staffAggMinutes (some m) (.numv q) = some (m * q)) ∧
    (∀ (materialId : String) (g m : ℚ)
        (quoteR : QuoteBody → Except String (Option ℚ)),
      ∀ b ∈ (calcUpload materialId (.ok ⟨.numv g, .numv m⟩) quoteR).2,
        b.qty = some 1 ∧ b.filament_grams = some g ∧ b.print_time_minutes = some m) ∧
    (∀ (materialId : String) (estR : Except String EstResp)
        (quoteR : QuoteBody → Except String (Option ℚ)),
      ∀ b ∈ (calcUpload materialId estR quoteR).2, b.qty = some 1) := by
  have hbody : ∀ (materialId machineId : String) (q g m : ℚ),
      staffQuoteBody materialId machineId (.numv q)
        (evNum0 (EstVal.numv g)).toVal (evNum0 (EstVal.numv m)).toVal
        (EstVal.ofNum 0) (EstVal.ofNum 0) =
      ⟨materialId, machineId, some q, some g, some m, some 0, some 0⟩ := by
    intro materialId machineId q g m
    simp [staffQuoteBody, QuoteBody.mk.injEq, evNum1_numv, evNum0_numv, evNum0_falsy,
      EstVal.ofNum, evNum0_toVal]
  have hquty : ∀ (materialId : String) (estR : Except String EstResp)
      (quoteR : QuoteBody → Except String (Option ℚ)),
      ∀ b ∈ (calcUpload materialId estR quoteR).2,
        b.qty = some 1 ∧
        b.filament_grams = evNum0 (match estR with
          | .ok est => (evNum0 est.estimated_grams).toVal
          | .error _ => .falsy) ∧
        b.print_time_minutes = evNum0 (match estR with
          | .ok est => (evNum0 est.estimated_minutes).toVal
          | .error _ => .falsy) := by
    intro materialId estR quoteR b hb
    cases estR with
    | error e => rw [calcUpload_estErr] at hb; simp at hb
    | ok est =>
      by_cases h : (!jsGt0 (evNum0 est.estimated_grams) ||
          !jsGt0 (evNum0 est.estimated_minutes)) = true
      · rw [calcUpload_guardFail materialId est quoteR h] at hb; simp at hb
      · rw [Bool.not_eq_true] at h
        cases hq : quoteR (quoteBody materialId (evNum0 est.estimated_grams).toVal
            (evNum0 est.estimated_minutes).toVal (.numv 1)) with
        | error e =>
          rw [calcUpload_quoteErr materialId est quoteR e h hq] at hb
          simp at hb
          subst hb
          exact ⟨rfl, rfl, rfl⟩
        | ok t =>
          rw [calcUpload_quoteOk materialId est quoteR t h hq] at hb
          simp at hb
          subst hb
          exact ⟨rfl, rfl, rfl⟩
  refine ⟨?_, ?_, ?_⟩
  · intro materialId machineId q g m quoteR
    refine ⟨?_, rfl, rfl⟩
    cases hq : quoteR (staffQuoteBody materialId machineId (.numv q)
        (evNum0 (EstVal.numv g)).toVal (evNum0 (EstVal.numv m)).toVal
        (EstVal.ofNum 0) (EstVal.ofNum 0)) with
    | error e =>
      rw [staffUpload_quoteErr materialId machineId (.numv q) ⟨.numv g, .numv m⟩ quoteR e hq]
      rw [hbody]
    | ok t =>
      rw [staffUpload_quoteOk materialId machineId (.numv q) ⟨.numv g, .numv m⟩ quoteR t hq]
      rw [hbody]
  · intro materialId g m quoteR b hb
    have h := hquty materialId (.ok ⟨.numv g, .numv m⟩) quoteR b hb
    refine ⟨h.1, ?_, ?_⟩
    · rw [h.2.1]
      show evNum0 (JsNum.toVal (some g)) = some g
      rw [evNum0_toVal]
      rfl
    · rw [h.2.2]
      show evNum0 (JsNum.toVal (some m)) = some m
      rw [evNum0_toVal]
      rfl
  · intro materialId estR quoteR b hb
    exact (hquty materialId estR quoteR b hb).1

/-- C2 witness: a concrete staff upload run sends the per-unit values
with the entered quantity, and a concrete public upload run sends
quantity `1`. -/
theorem C2_witness :
    (estimateAndCalcUpload "pla_black" "machine1" (.numv 3)
        (.ok ⟨.numv 50, .numv 90⟩) (fun _ => .ok (some 100))).2 =
      [⟨"pla_black", "machine1", some 3, some 50, some 90, some 0, some 0⟩] ∧
    (quoteBody "pla_black" (JsNum.toVal (some 50)) (JsNum.toVal (some 90)) (.numv 1)).qty =
      some 1 :=
  ⟨(C2_upload_quantity_semantics.1 "pla_black" "machine1" 3 50 90
      (fun _ => .ok (some 100))).1,
   (C2_upload_quantity_semantics.2.2 "pla_black" (.ok ⟨.numv 50, .numv 90⟩)
      (fun _ => .ok (some 100)) _ (by decide))⟩

/-! ## C5 -/

/-- The gating invariant: at most one request in flight, and while one
is outstanding the page is `loading` (so the submit control is
disabled). -/
def OInv (s : OState) : Prop :=
  s.pend.length ≤ 1 ∧ (s.pend ≠ [] → s.loading = true)

lemma ostep_preserves_OInv {s : OState} (h : OInv s) (e : OEvent) : OInv (ostep s e) := by
  obtain ⟨hlen, hload⟩ := h
  have hpe : s.loading = false → s.pend = [] := by
    intro hld
    by_contra hne
    rw [hload hne] at hld
    exact absurd hld (by decide)
  cases e with
  | clickUpload en =>
    cases hld : s.loading with
    | true => simpa [ostep, hld] using ⟨hlen, hload⟩
    | false =>
      cases en with
      | false => simpa [ostep, hld] using ⟨hlen, hload⟩
      | true =>
        refine ⟨?_, ?_⟩ <;> simp [ostep, hld, hpe hld]
  | clickManual en valid =>
    cases hld : s.loading with
    | true => simpa [ostep, hld] using ⟨hlen, hload⟩
    | false =>
      cases en with
      | false => simpa [ostep, hld] using ⟨hlen, hload⟩
      | true =>
        cases valid with
        | false => simpa [ostep, hld] using ⟨hlen, hload⟩
        | true =>
          refine ⟨?_, ?_⟩ <;> simp [ostep, hld, hpe hld]
  | estDone succ gok =>
    match hp : s.pend with
    | [] => simpa [ostep, hp] using ⟨hlen, hload⟩
    | .est :: rest =>
      have hrest : rest = [] := by
        rw [hp] at hlen
        simpa using hlen
      subst hrest
      cases hsg : (succ && gok) with
      | true =>
        refine ⟨by simp [ostep, hp, hsg], ?_⟩
        intro _
        simp only [ostep, hp, hsg]
        exact hload (by rw [hp]; simp)
      | false =>
        refine ⟨by simp [ostep, hp, hsg], ?_⟩
        intro hcon
        simp [ostep, hp, hsg] at hcon
    | .quo :: rest => simpa [ostep, hp] using ⟨hlen, hload⟩
  | quoDone succ =>
    match hp : s.pend with
    | [] => simpa [ostep, hp] using ⟨hlen, hload⟩
    | .est :: rest => simpa [ostep, hp] using ⟨hlen, hload⟩
    | .quo :: rest =>
      have hrest : rest = [] := by
        rw [hp] at hlen
        simpa using hlen
      subst hrest
      refine ⟨by simp [ostep, hp], ?_⟩
      intro hcon
      simp [ostep, hp] at hcon

lemma orun_OInv (evs : List OEvent) : OInv (orun evs) := by
  have hgen : ∀ (l : List OEvent) (s : OState), OInv s → OInv (l.foldl ostep s) := by
    intro l
    induction l with
    | nil => intro s hs; exact hs
    | cons e t ih =>
      intro s hs
      exact ih (ostep s e) (ostep_preserves_OInv hs e)
  exact hgen evs oInit ⟨by simp [oInit], by simp [oInit]⟩

/-- C5: in every reachable orchestrator state of the public page, at
most one network call of the pricing session is in flight; whenever one
is in flight the page is `loading`, so the submit control
(`disabled={!canSubmit || loading}`) is disabled and a further click is
a no-op. -/
theorem C5_no_overlapping_requests :
    (∀ evs : List OEvent, (orun evs).pend.length ≤ 1) ∧
    (∀ evs : List OEvent, (orun evs).pend ≠ [] → (orun evs).loading = true) ∧
    (∀ s : OState, s.loading = true →
      (∀ en, ostep s (.clickUpload en) = s) ∧
      (∀ en valid, ostep s (.clickManual en valid) = s)) := by
  refine ⟨fun evs => (orun_OInv evs).1, fun evs => (orun_OInv evs).2, ?_⟩
  intro s hl
  constructor
  · intro en
    simp [ostep, hl]
  · intro en valid
    simp [ostep, hl]

/-- C5 witness: after one accepted upload click, a request is in
flight, the state is loading, and a second click is a no-op. -/
theorem C5_witness :
    (orun [OEvent.clickUpload true]).pend.length ≤ 1 ∧
    (orun [OEvent.clickUpload true]).loading = true ∧
    ostep (orun [OEvent.clickUpload true]) (.clickUpload true) =
      orun [OEvent.clickUpload true] :=
  ⟨C5_no_overlapping_requests.1 [OEvent.clickUpload true],
   C5_no_overlapping_requests.2.1 [OEvent.clickUpload true] (by decide),
   (C5_no_overlapping_requests.2.2 (orun [OEvent.clickUpload true]) (by decide)).1 true⟩

/-! ## C6 -/

lemma onKey_escape (options : List SelOpt) (value : String) (h : Int) :
    onKey options value ⟨true, h⟩ .escape = ⟨⟨false, h⟩, none, true⟩ := rfl

lemma onKey_down (options : List SelOpt) (value : String) (h : Int) :
    onKey options value ⟨true, h⟩ .arrowDown =
      ⟨⟨true,
        if (if h < 0 then max 0 (jsFindIndex options value) else h) ≥
            (options.length : Int) - 1 then 0
        else (if h < 0 then max 0 (jsFindIndex options value) else h) + 1⟩,
       none, false⟩ := rfl

lemma onKey_up (options : List SelOpt) (value : String) (h : Int) :
    onKey options value ⟨true, h⟩ .arrowUp =
      ⟨⟨true,
        if (if h < 0 then max 0 (jsFindIndex options value) else h) ≤ 0 then
          (options.length : Int) - 1
        else (if h < 0 then max 0 (jsFindIndex options value) else h) - 1⟩,
       none, false⟩ := rfl

lemma onKey_enter_some (options : List SelOpt) (value : String) (h : Int) (o : SelOpt)
    (h0 : 0 ≤ h) (hget : options[h.toNat]? = some o) :
    onKey options value ⟨true, h⟩ .enter = ⟨⟨false, h⟩, some o.value, true⟩ := by
  simp only [onKey, Bool.not_true]
  rw [if_neg (by simp), if_pos h0, hget]

/-- C6 counterexample: with two options and a value matching none of
them, the menu opens with highlight `-1`, and pressing `ArrowDown`
highlights index `1`, not index `0` as claimed (the seed
`Math.max(0, findIndex) = 0` is incremented). -/
theorem C6_counterexample :
    initHighlight [⟨"a", "A"⟩, ⟨"b", "B"⟩] "z" = -1 ∧
    (onKey [⟨"a", "A"⟩, ⟨"b", "B"⟩] "z" ⟨true, -1⟩ .arrowDown).st.highlight = 1 ∧
    (onKey [⟨"a", "A"⟩, ⟨"b", "B"⟩] "z" ⟨true, -1⟩ .arrowDown).st.highlight ≠ 0 := by
  decide

/-- C6 (amended): with the menu open, `ArrowDown`/`ArrowUp` move the
highlight circularly, seeded — when no index is highlighted — from
`max 0 (selected option index)`; hence with nothing selected,
`ArrowDown` highlights index `1` when there are at least two options
(index `0` when there is exactly one), and from the last index it wraps
to `0`; `Enter` on a highlighted option commits that option's value as
a string, closes the menu and refocuses the trigger; `Escape` closes
without committing. -/
theorem C6_keyboard_behavior :
    (∀ (options : List SelOpt) (value : String) (h : Int),
      onKey options value ⟨true, h⟩ .escape = ⟨⟨false, h⟩, none, true⟩) ∧
    (∀ (options : List SelOpt) (value : String) (h : Int),
      0 ≤ h → h < (options.length : Int) - 1 →
      onKey options value ⟨true, h⟩ .arrowDown = ⟨⟨true, h + 1⟩, none, false⟩) ∧
    (∀ (options : List SelOpt) (value : String),
      options ≠ [] →
      onKey options value ⟨true, (options.length : Int) - 1⟩ .arrowDown =
        ⟨⟨true, 0⟩, none, false⟩) ∧
    (∀ (options : List SelOpt) (value : String),
      onKey options value ⟨true, 0⟩ .arrowUp =
        ⟨⟨true, (options.length : Int) - 1⟩, none, false⟩) ∧
    (∀ (options : List SelOpt) (value : String) (h : Int),
      0 < h →
      onKey options value ⟨true, h⟩ .arrowUp = ⟨⟨true, h - 1⟩, none, false⟩) ∧
    (∀ (options : List SelOpt) (value : String) (h : Int),
      h < 0 → jsFindIndex options value = -1 → 2 ≤ options.length →
      onKey options value ⟨true, h⟩ .arrowDown = ⟨⟨true, 1⟩, none, false⟩) ∧
    (∀ (options : List SelOpt) (value : String) (h : Int),
      h < 0 → jsFindIndex options value = -1 → options.length = 1 →
      onKey options value ⟨true, h⟩ .arrowDown = ⟨⟨true, 0⟩, none, false⟩) ∧
    (∀ (options : List SelOpt) (value : String) (h : Int),
      h < 0 → 0 ≤ jsFindIndex options value →
      jsFindIndex options value < (options.length : Int) - 1 →
      onKey options value ⟨true, h⟩ .arrowDown =
        ⟨⟨true, jsFindIndex options value + 1⟩, none, false⟩) ∧
    (∀ (options : List SelOpt) (value : String) (h : Int) (o : SelOpt),
      0 ≤ h → options[h.toNat]? = some o →
      onKey options value ⟨true, h⟩ .enter = ⟨⟨false, h⟩, some o.value, true⟩) ∧
    (∀ (options : List SelOpt) (value : String) (h : Int),
      h < 0 →
      onKey options value ⟨true, h⟩ .enter = ⟨⟨true, h⟩, none, false⟩) := by
  refine ⟨onKey_escape, ?_, ?_, ?_, ?_, ?_, ?_, ?_, onKey_enter_some, ?_⟩
  · intro options value h h0 hlt
    rw [onKey_down]
    have hseed : (if h < 0 then max 0 (jsFindIndex options value) else h) = h :=
      if_neg (by omega)
    rw [hseed, if_neg (by omega)]
  · intro options value hne
    have hlen : 1 ≤ options.length := List.length_pos.mpr hne
    have h1 : ¬((options.length : Int) - 1 < 0) := by
      have h2 : (1 : Int) ≤ (options.length : Int) := by exact_mod_cast hlen
      omega
    rw [onKey_down]
    have hseed : (if (options.length : Int) - 1 < 0 then max 0 (jsFindIndex options value)
        else (options.length : Int) - 1) = (options.length : Int) - 1 := if_neg h1
    rw [hseed, if_pos (le_refl _)]
  · intro options value
    rw [onKey_up]
    have hseed : (if (0 : Int) < 0 then max 0 (jsFindIndex options value) else 0) = 0 :=
      if_neg (by omega)
    rw [hseed, if_pos (le_refl 0)]
  · intro options value h h0
    rw [onKey_up]
    have hseed : (if h < 0 then max 0 (jsFindIndex options value) else h) = h :=
      if_neg (by omega)
    rw [hseed, if_neg (by omega)]
  · intro options value h h0 hfi hlen
    rw [onKey_down]
    have hseed : (if h < 0 then max 0 (jsFindIndex options value) else h) = 0 := by
      rw [if_pos h0, hfi]
      decide
    have h2 : (2 : Int) ≤ (options.length : Int) := by exact_mod_cast hlen
    rw [hseed, if_neg (by omega)]
    norm_num
  · intro options value h h0 hfi hlen
    rw [onKey_down]
    have hseed : (if h < 0 then max 0 (jsFindIndex options value) else h) = 0 := by
      rw [if_pos h0, hfi]
      decide
    have h2 : (options.length : Int) = 1 := by exact_mod_cast hlen
    rw [hseed, if_pos (by omega)]
  · intro options value h h0 hfi hlt
    rw [onKey_down]
    have hseed : (if h < 0 then max 0 (jsFindIndex options value) else h) =
        jsFindIndex options value := by
      rw [if_pos h0]
      exact max_eq_right hfi
    rw [hseed, if_neg (by omega)]
  · intro options value h h0
    simp only [onKey, Bool.not_true]
    rw [if_neg (by simp), if_neg (by omega)]

/-- C6 witness: the amended theorem at concrete inputs — Enter commits
the highlighted value, and ArrowDown from no selection over two options
highlights index 1. -/
theorem C6_witness :
    onKey [⟨"a", "A"⟩, ⟨"b", "B"⟩] "b" ⟨true, 1⟩ .enter =
      ⟨⟨false, 1⟩, some "b", true⟩ ∧
    onKey [⟨"a", "A"⟩, ⟨"b", "B"⟩] "z" ⟨true, -1⟩ .arrowDown =
      ⟨⟨true, 1⟩, none, false⟩ :=
  ⟨C6_keyboard_behavior.2.2.2.2.2.2.2.2.1 [⟨"a", "A"⟩, ⟨"b", "B"⟩] "b" 1 ⟨"b", "B"⟩
     (by decide) (by decide),
   C6_keyboard_behavior.2.2.2.2.2.1 [⟨"a", "A"⟩, ⟨"b", "B"⟩] "z" (-1)
     (by decide) (by decide) (by decide)⟩

/-! ## Projection lemmas (C3, C4) -/

lemma optOk_false_cond {o : RawOpt} (h : optOk o = false) :
    (decide (o.id = "") || strStartsWith o.id "+") = true := by
  unfold optOk at h
  cases hb : (decide (o.id = "") || strStartsWith o.id "+") with
  | true => rfl
  | false =>
    rw [hb] at h
    exact absurd h (by decide)

lemma optOk_true_cond {o : RawOpt} (h : optOk o = true) :
    (decide (o.id = "") || strStartsWith o.id "+") = false := by
  unfold optOk at h
  cases hb : (decide (o.id = "") || strStartsWith o.id "+") with
  | false => rfl
  | true =>
    rw [hb] at h
    exact absurd h (by decide)

lemma addOpt_skip_notOk {st : List RawOpt × List String} {o : RawOpt}
    (h : optOk o = false) : addOpt st o = st := by
  unfold addOpt
  rw [if_pos]
  simpa using optOk_false_cond h

lemma addOpt_skip_seen {st : List RawOpt × List String} {o : RawOpt}
    (hok : optOk o = true) (h : o.id ∈ st.2) : addOpt st o = st := by
  unfold addOpt
  rw [if_neg (by simpa using optOk_true_cond hok), if_pos h]

lemma addOpt_push {st : List RawOpt × List String} {o : RawOpt}
    (hok : optOk o = true) (h : o.id ∉ st.2) :
    addOpt st o = (st.1 ++ [o], st.2 ++ [o.id]) := by
  unfold addOpt
  rw [if_neg (by simpa using optOk_true_cond hok), if_neg h]

lemma firstWinsFrom_nil (seen : List String) : firstWinsFrom seen [] = [] := rfl

lemma firstWinsFrom_cons (seen : List String) (o : RawOpt) (t : List RawOpt) :
    firstWinsFrom seen (o :: t) =
      if o.id ∈ seen then firstWinsFrom seen t
      else o :: firstWinsFrom (seen ++ [o.id]) t := rfl

lemma foldl_addOpt_filter (l : List RawOpt) (st : List RawOpt × List String) :
    l.foldl addOpt st = (l.filter optOk).foldl addOpt st := by
  induction l generalizing st with
  | nil => rfl
  | cons o t ih =>
    cases hok : optOk o with
    | true => rw [List.foldl_cons, List.filter_cons, if_pos hok, List.foldl_cons, ih]
    | false =>
      rw [List.foldl_cons, addOpt_skip_notOk hok, List.filter_cons, if_neg (by simp [hok]), ih]

lemma foldl_addOpt_ok (l : List RawOpt) :
    (∀ o ∈ l, optOk o = true) → ∀ (acc : List RawOpt) (seen : List String),
      l.foldl addOpt (acc, seen) =
        (acc ++ firstWinsFrom seen l,
         seen ++ (firstWinsFrom seen l).map (fun o => o.id)) := by
  induction l with
  | nil => intro _ acc seen; simp [firstWinsFrom_nil]
  | cons o t ih =>
    intro hok acc seen
    have hko : optOk o = true := hok o (by simp)
    have hkt : ∀ x ∈ t, optOk x = true := fun x hx => hok x (by simp [hx])
    rw [List.foldl_cons, firstWinsFrom_cons]
    by_cases hs : o.id ∈ seen
    · rw [show addOpt (acc, seen) o = (acc, seen) from addOpt_skip_seen hko hs,
        ih hkt acc seen, if_pos hs]
    · rw [show addOpt (acc, seen) o = (acc ++ [o], seen ++ [o.id]) from addOpt_push hko hs,
        ih hkt (acc ++ [o]) (seen ++ [o.id]), if_neg hs]
      simp [List.append_assoc]

lemma firstWinsFrom_append (l1 l2 : List RawOpt) : ∀ seen : List String,
    firstWinsFrom seen (l1 ++ l2) =
      firstWinsFrom seen l1 ++
        firstWinsFrom (seen ++ (firstWinsFrom seen l1).map (fun o => o.id)) l2 := by
  induction l1 with
  | nil =>
    intro seen
    rw [List.nil_append, firstWinsFrom_nil]
    simp
  | cons o t ih =>
    intro seen
    rw [List.cons_append, firstWinsFrom_cons, firstWinsFrom_cons]
    by_cases hs : o.id ∈ seen
    · rw [if_pos hs, if_pos hs, ih seen]
    · rw [if_neg hs, if_neg hs, ih (seen ++ [o.id])]
      simp [List.append_assoc]

lemma collectFam_cons_pos {k : Fam} {g : RawGroup} (t : List RawGroup)
    (hg : groupFam g = some k) :
    collectFam k (g :: t) = g.options.filter optOk ++ collectFam k t := by
  unfold collectFam
  rw [List.filter_cons, if_pos (by simp [hg]), List.flatMap_cons]

lemma collectFam_cons_neg {k : Fam} {g : RawGroup} (t : List RawGroup)
    (hg : ¬groupFam g = some k) :
    collectFam k (g :: t) = collectFam k t := by
  unfold collectFam
  rw [List.filter_cons, if_neg (by simp [hg])]

lemma buildFamSt_fold_eq (k : Fam) : ∀ (gs : List RawGroup) (acc : List RawOpt)
    (seen : List String),
    gs.foldl (fun st g => if groupFam g = some k then g.options.foldl addOpt st else st)
      (acc, seen) =
      (acc ++ firstWinsFrom seen (collectFam k gs),
       seen ++ (firstWinsFrom seen (collectFam k gs)).map (fun o => o.id)) := by
  intro gs
  induction gs with
  | nil =>
    intro acc seen
    simp [collectFam, firstWinsFrom_nil]
  | cons g t ih =>
    intro acc seen
    by_cases hg : groupFam g = some k
    · rw [List.foldl_cons]
      have hstep : (if groupFam g = some k then g.options.foldl addOpt (acc, seen)
          else (acc, seen)) = g.options.foldl addOpt (acc, seen) := if_pos hg
      rw [hstep, foldl_addOpt_filter,
        foldl_addOpt_ok (g.options.filter optOk) (fun o ho => List.of_mem_filter ho) acc seen,
        ih, collectFam_cons_pos t hg, firstWinsFrom_append]
      simp [List.append_assoc]
    · rw [List.foldl_cons]
      have hstep : (if groupFam g = some k then g.options.foldl addOpt (acc, seen)
          else (acc, seen)) = (acc, seen) := if_neg hg
      rw [hstep, ih, collectFam_cons_neg t hg]

/-- The mutable-Set first-wins deduplication of the source loop agrees
with the specification-level `dedupFirstById` applied to the kept
options of the classified groups in traversal order. -/
lemma buildFam_eq_dedup (k : Fam) (gs : List RawGroup) :
    buildFam k gs = dedupFirstById (collectFam k gs) := by
  unfold buildFam buildFamSt dedupFirstById
  rw [buildFamSt_fold_eq k gs [] []]
  simp

lemma mem_foldl_addOpt {l : List RawOpt} :
    ∀ {st : List RawOpt × List String} {o : RawOpt},
      o ∈ (l.foldl addOpt st).1 → o ∈ st.1 ∨ optOk o = true := by
  induction l with
  | nil => intro st o h; exact Or.inl h
  | cons x t ih =>
    intro st o h
    rw [List.foldl_cons] at h
    rcases ih h with h1 | h1
    · cases hok : optOk x with
      | false =>
        rw [addOpt_skip_notOk hok] at h1
        exact Or.inl h1
      | true =>
        by_cases hs : x.id ∈ st.2
        · rw [addOpt_skip_seen hok hs] at h1
          exact Or.inl h1
        · rw [addOpt_push hok hs] at h1
          rcases List.mem_append.mp h1 with h2 | h2
          · exact Or.inl h2
          · right
            rw [List.mem_singleton.mp h2]
            exact hok
    · exact Or.inr h1

lemma mem_groupFold {k : Fam} {o : RawOpt} :
    ∀ (gs : List RawGroup) (st : List RawOpt × List String),
      o ∈ ((gs.foldl (fun st g => if groupFam g = some k then g.options.foldl addOpt st
        else st) st).1) → o ∈ st.1 ∨ optOk o = true := by
  intro gs
  induction gs with
  | nil => intro st h; exact Or.inl h
  | cons g t ih =>
    intro st h
    rw [List.foldl_cons] at h
    rcases ih _ h with h1 | h1
    · by_cases hg : groupFam g = some k
      · rw [if_pos hg] at h1
        exact mem_foldl_addOpt h1
      · rw [if_neg hg] at h1
        exact Or.inl h1
    · exact Or.inr h1

lemma mem_buildFam_optOk {k : Fam} {gs : List RawGroup} {o : RawOpt}
    (h : o ∈ buildFam k gs) : optOk o = true := by
  unfold buildFam buildFamSt at h
  rcases mem_groupFold gs ([], []) h with h1 | h1
  · simp at h1
  · exact h1

lemma foldl_step_skip (k : Fam) {g : RawGroup} (h : groupFam g = none)
    (st : List RawOpt × List String) :
    (if groupFam g = some k then g.options.foldl addOpt st else st) = st :=
  if_neg (by simp [h])

lemma buildFam_skip {g : RawGroup} (h : groupFam g = none) (l1 l2 : List RawGroup)
    (k : Fam) : buildFam k (l1 ++ g :: l2) = buildFam k (l1 ++ l2) := by
  unfold buildFam buildFamSt
  rw [List.foldl_append, List.foldl_append, List.foldl_cons]
  simp only [foldl_step_skip k h]

lemma project_eq (env : ProtoEnv) (cmp : String → String → Int) (gs : List RawGroup) :
    project env cmp gs =
      ([Fam.pla, Fam.petg, Fam.tpu].filter (fun k => !(buildFam k gs).isEmpty)).map
        (fun k => (k, (buildFam k gs).mergeSort
          (fun a b => cmp (optKey env k a) (optKey env k b) ≤ 0))) := by
  unfold project
  rw [List.filter_map, List.map_map]
  rfl

lemma project_mem_decomp {env : ProtoEnv} {cmp : String → String → Int} {gs : List RawGroup}
    {k : Fam} {opts : List RawOpt} (h : (k, opts) ∈ project env cmp gs) :
    opts = (buildFam k gs).mergeSort
      (fun a b => cmp (optKey env k a) (optKey env k b) ≤ 0) ∧
    buildFam k gs ≠ [] := by
  rw [project_eq] at h
  obtain ⟨k2, hk2, heq⟩ := List.mem_map.mp h
  obtain ⟨hmem, hpred⟩ := List.mem_filter.mp hk2
  cases heq
  refine ⟨rfl, ?_⟩
  intro hnil
  rw [hnil] at hpred
  simp at hpred

lemma strStartsWith_plus_toLower {s : String} (h : strStartsWith s "+" = true) :
    strStartsWith (strToLower s) "+" = true := by
  unfold strStartsWith at h ⊢
  have hpl : ("+" : String).toList = ['+'] := rfl
  rw [hpl] at h ⊢
  rw [strToLower_toList]
  cases hs : s.toList with
  | nil =>
    rw [hs] at h
    exact absurd h (by decide)
  | cons c t =>
    rw [hs] at h
    have hc : c = '+' := by
      simp [List.isPrefixOf] at h
      exact h.symm
    rw [List.map_cons, hc]
    have hlow : Char.toLower '+' = '+' := rfl
    rw [hlow]
    simp [List.isPrefixOf]

lemma groupFam_plus {g : RawGroup} (h : strStartsWith g.group_id "+" = true) :
    groupFam g = none := by
  have h2 := strStartsWith_plus_toLower h
  simp [groupFam, h2]

/-! ## C3 -/

/-- C3: the public projection classifies each raw group into at most
one family by case-insensitive substring test in the fixed priority
order petg, tpu, pla (first match wins); groups matching no keyword
contribute nothing to the projected output, and raw groups or options
whose id begins with `+` are excluded entirely. -/
theorem C3_family_classification :
    (∀ gid : String, jsIncludes gid "petg" = true → classifyGid gid = some .petg) ∧
    (∀ gid : String, jsIncludes gid "petg" = false → jsIncludes gid "tpu" = true →
      classifyGid gid = some .tpu) ∧
    (∀ gid : String, jsIncludes gid "petg" = false → jsIncludes gid "tpu" = false →
      jsIncludes gid "pla" = true → classifyGid gid = some .pla) ∧
    (∀ gid : String, jsIncludes gid "petg" = false → jsIncludes gid "tpu" = false →
      jsIncludes gid "pla" = false → classifyGid gid = none) ∧
    (∀ g : RawGroup, strStartsWith g.group_id "+" = true → groupFam g = none) ∧
    (∀ (env : ProtoEnv) (cmp : String → String → Int) (l1 l2 : List RawGroup)
        (g : RawGroup), groupFam g = none →
      project env cmp (l1 ++ g :: l2) = project env cmp (l1 ++ l2)) ∧
    (∀ (env : ProtoEnv) (cmp : String → String → Int) (gs : List RawGroup) (k : Fam)
        (opts : List RawOpt), (k, opts) ∈ project env cmp gs →
      ∀ o ∈ opts, o.id ≠ "" ∧ strStartsWith o.id "+" = false) := by
  refine ⟨?_, ?_, ?_, ?_, fun g => groupFam_plus, ?_, ?_⟩
  · intro gid h
    simp [classifyGid, h]
  · intro gid h1 h2
    simp [classifyGid, h1, h2]
  · intro gid h1 h2 h3
    simp [classifyGid, h1, h2, h3]
  · intro gid h1 h2 h3
    simp [classifyGid, h1, h2, h3]
  · intro env cmp l1 l2 g hg
    rw [project_eq, project_eq]
    simp only [buildFam_skip hg l1 l2]
  · intro env cmp gs k opts hmem o ho
    obtain ⟨heq, hne⟩ := project_mem_decomp hmem
    subst heq
    have hperm := List.mergeSort_perm (buildFam k gs)
      (fun a b => cmp (optKey env k a) (optKey env k b) ≤ 0)
    have hob : o ∈ buildFam k gs := hperm.mem_iff.mp ho
    have hc := optOk_true_cond (mem_buildFam_optOk hob)
    simp at hc
    exact ⟨hc.1, hc.2⟩

/-- C3 witness: the theorem applied to concrete inputs — a group id
containing both `petg` and `pla` classifies as PETG, a `+`-prefixed
group is dropped, and inserting a non-classifiable group does not
change the projection. -/
theorem C3_witness :
    classifyGid "petg_pla_special" = some Fam.petg ∧
    groupFam ⟨"+internal", [⟨"pla_black", none, none⟩]⟩ = none ∧
    project stdProtoEnv (fun _ _ => 0)
        ([⟨"PLA_Silk", [⟨"pla_black", none, none⟩]⟩] ++
          ⟨"resin", [⟨"resin_clear", none, none⟩]⟩ ::
            [⟨"petg", [⟨"petg_transparent", none, none⟩]⟩]) =
      project stdProtoEnv (fun _ _ => 0)
        ([⟨"PLA_Silk", [⟨"pla_black", none, none⟩]⟩] ++
          [⟨"petg", [⟨"petg_transparent", none, none⟩]⟩]) :=
  ⟨C3_family_classification.1 "petg_pla_special" (by decide),
   C3_family_classification.2.2.2.2.1 ⟨"+internal", [⟨"pla_black", none, none⟩]⟩ (by decide),
   C3_family_classification.2.2.2.2.2.1 stdProtoEnv (fun _ _ => 0)
     [⟨"PLA_Silk", [⟨"pla_black", none, none⟩]⟩]
     [⟨"petg", [⟨"petg_transparent", none, none⟩]⟩]
     ⟨"resin", [⟨"resin_clear", none, none⟩]⟩ (by decide)⟩

/-! ## C4 -/

/-- C4: within each projected family, options are deduplicated by id
with the first occurrence winning, across raw groups; the output family
order is exactly pla, petg, tpu filtered to the families with at least
one surviving option; and option lists are sorted ascending by the
derived label (`prettifyKey` of the family-prefix-stripped id, in the
ambient prototype environment) under the comparator, whenever the
comparator is a total preorder. -/
theorem C4_dedup_order_sort (env : ProtoEnv) (cmp : String → String → Int)
    (gs : List RawGroup)
    (htr : ∀ a b c : String, cmp a b ≤ 0 → cmp b c ≤ 0 → cmp a c ≤ 0)
    (hto : ∀ a b : String, cmp a b ≤ 0 ∨ cmp b a ≤ 0) :
    ((project env cmp gs).map Prod.fst =
      [Fam.pla, Fam.petg, Fam.tpu].filter (fun k => !(buildFam k gs).isEmpty)) ∧
    ((project env cmp gs).map Prod.fst).Sublist [Fam.pla, Fam.petg, Fam.tpu] ∧
    (∀ p ∈ project env cmp gs, p.2 ≠ []) ∧
    (∀ k : Fam, buildFam k gs = dedupFirstById (collectFam k gs)) ∧
    (∀ p ∈ project env cmp gs, p.2.Perm (dedupFirstById (collectFam p.1 gs))) ∧
    (∀ p ∈ project env cmp gs,
      p.2.Pairwise (fun a b => cmp (optKey env p.1 a) (optKey env p.1 b) ≤ 0)) := by
  have horder : (project env cmp gs).map Prod.fst =
      [Fam.pla, Fam.petg, Fam.tpu].filter (fun k => !(buildFam k gs).isEmpty) := by
    rw [project_eq, List.map_map]
    have hcomp : (Prod.fst ∘ fun k => (k, (buildFam k gs).mergeSort
        (fun a b => cmp (optKey env k a) (optKey env k b) ≤ 0))) = id := rfl
    rw [hcomp, List.map_id]
  refine ⟨horder, ?_, ?_, fun k => buildFam_eq_dedup k gs, ?_, ?_⟩
  · rw [horder]
    exact List.filter_sublist _
  · rintro ⟨k, opts⟩ hp
    obtain ⟨heq, hne⟩ := project_mem_decomp hp
    subst heq
    show ((buildFam k gs).mergeSort _) ≠ []
    intro hnil
    have hperm := List.mergeSort_perm (buildFam k gs)
      (fun a b => cmp (optKey env k a) (optKey env k b) ≤ 0)
    rw [hnil] at hperm
    exact hne (List.Perm.eq_nil hperm.symm)
  · rintro ⟨k, opts⟩ hp
    obtain ⟨heq, hne⟩ := project_mem_decomp hp
    subst heq
    show ((buildFam k gs).mergeSort _).Perm (dedupFirstById (collectFam k gs))
    rw [← buildFam_eq_dedup k gs]
    exact List.mergeSort_perm _ _
  · rintro ⟨k, opts⟩ hp
    obtain ⟨heq, hne⟩ := project_mem_decomp hp
    subst heq
    have htrans2 : ∀ (a b c : RawOpt),
        (decide (cmp (optKey env k a) (optKey env k b) ≤ 0)) = true →
        (decide (cmp (optKey env k b) (optKey env k c) ≤ 0)) = true →
        (decide (cmp (optKey env k a) (optKey env k c) ≤ 0)) = true := by
      intro a b c hab hbc
      exact decide_eq_true (htr _ _ _ (of_decide_eq_true hab) (of_decide_eq_true hbc))
    have htot2 : ∀ (a b : RawOpt),
        ((decide (cmp (optKey env k a) (optKey env k b) ≤ 0)) ||
          (decide (cmp (optKey env k b) (optKey env k a) ≤ 0))) = true := by
      intro a b
      rcases hto (optKey env k a) (optKey env k b) with h1 | h1
      · simp [h1]
      · simp [h1]
    have hs := List.sorted_mergeSort htrans2 htot2 (buildFam k gs)
    exact hs.imp (fun hab => of_decide_eq_true hab)

/-- C4 witness: the theorem applied to a concrete overlapping catalog
(`pla_fast` and `pla_silk` share an option id) in the standard
prototype environment under the constant comparator. -/
theorem C4_witness :
    buildFam Fam.pla
        [⟨"pla_fast", [⟨"pla_a", none, none⟩, ⟨"pla_b", none, none⟩]⟩,
         ⟨"pla_silk", [⟨"pla_b", none, none⟩, ⟨"pla_c", none, none⟩]⟩] =
      dedupFirstById (collectFam Fam.pla
        [⟨"pla_fast", [⟨"pla_a", none, none⟩, ⟨"pla_b", none, none⟩]⟩,
         ⟨"pla_silk", [⟨"pla_b", none, none⟩, ⟨"pla_c", none, none⟩]⟩]) ∧
    (project stdProtoEnv (fun _ _ => 0)
        [⟨"pla_fast", [⟨"pla_a", none, none⟩, ⟨"pla_b", none, none⟩]⟩,
         ⟨"pla_silk", [⟨"pla_b", none, none⟩, ⟨"pla_c", none, none⟩]⟩]).map
      Prod.fst =
      [Fam.pla, Fam.petg, Fam.tpu].filter (fun k => !(buildFam k
        [⟨"pla_fast", [⟨"pla_a", none, none⟩, ⟨"pla_b", none, none⟩]⟩,
         ⟨"pla_silk", [⟨"pla_b", none, none⟩, ⟨"pla_c", none, none⟩]⟩]).isEmpty) :=
  ⟨(C4_dedup_order_sort stdProtoEnv (fun _ _ => 0)
      [⟨"pla_fast", [⟨"pla_a", none, none⟩, ⟨"pla_b", none, none⟩]⟩,
       ⟨"pla_silk", [⟨"pla_b", none, none⟩, ⟨"pla_c", none, none⟩]⟩]
      (fun _ _ _ h1 _ => h1)
      (fun _ _ => Or.inl (show (0 : Int) ≤ 0 from le_refl 0))).2.2.2.1 Fam.pla,
   (C4_dedup_order_sort stdProtoEnv (fun _ _ => 0)
      [⟨"pla_fast", [⟨"pla_a", none, none⟩, ⟨"pla_b", none, none⟩]⟩,
       ⟨"pla_silk", [⟨"pla_b", none, none⟩, ⟨"pla_c", none, none⟩]⟩]
      (fun _ _ _ h1 _ => h1)
      (fun _ _ => Or.inl (show (0 : Int) ≤ 0 from le_refl 0))).1⟩

/-! ## Tokenisation lemmas (C8) -/

lemma splitOnSpace_ne_nil : ∀ cs : List Char, splitOnSpace cs ≠ []
  | [] => by simp [splitOnSpace]
  | c :: rest => by
    by_cases hc : c = ' '
    · simp [splitOnSpace, hc]
    · simp only [splitOnSpace, if_neg hc]
      cases hs : splitOnSpace rest with
      | nil => exact absurd hs (splitOnSpace_ne_nil rest)
      | cons t ts => simp

lemma splitOnSpace_cons_space (rest : List Char) :
    splitOnSpace (' ' :: rest) = [] :: splitOnSpace rest := by
  simp [splitOnSpace]

lemma splitOnSpace_cons_ne (c : Char) (rest : List Char) (hc : ¬c = ' ')
    (t : List Char) (ts : List (List Char)) (hs : splitOnSpace rest = t :: ts) :
    splitOnSpace (c :: rest) = (c :: t) :: ts := by
  simp only [splitOnSpace, if_neg hc, hs]

lemma splitOnSpace_append_space : ∀ cs : List Char,
    splitOnSpace (cs ++ [' ']) = splitOnSpace cs ++ [[]]
  | [] => rfl
  | c :: rest => by
    have hrec := splitOnSpace_append_space rest
    by_cases hc : c = ' '
    · subst hc
      rw [List.cons_append, splitOnSpace_cons_space, splitOnSpace_cons_space, hrec,
        List.cons_append]
    · cases hs : splitOnSpace rest with
      | nil => exact absurd hs (splitOnSpace_ne_nil rest)
      | cons t ts =>
        rw [hs] at hrec
        rw [List.cons_append, splitOnSpace_cons_ne c (rest ++ [' ']) hc t (ts ++ [[]])
            (by rw [hrec, List.cons_append]),
          splitOnSpace_cons_ne c rest hc t ts hs, List.cons_append]

lemma splitFilter_cons_space (cs : List Char) :
    (splitOnSpace (' ' :: cs)).filter (fun t => !t.isEmpty) =
      (splitOnSpace cs).filter (fun t => !t.isEmpty) := by
  simp [splitOnSpace]

lemma splitFilter_append_space (cs : List Char) :
    (splitOnSpace (cs ++ [' '])).filter (fun t => !t.isEmpty) =
      (splitOnSpace cs).filter (fun t => !t.isEmpty) := by
  rw [splitOnSpace_append_space, List.filter_append]
  simp

lemma splitFilter_spaces_left : ∀ (sp cs : List Char), (∀ c ∈ sp, c = ' ') →
    (splitOnSpace (sp ++ cs)).filter (fun t => !t.isEmpty) =
      (splitOnSpace cs).filter (fun t => !t.isEmpty) := by
  intro sp
  induction sp with
  | nil => intro cs _; rfl
  | cons c t ih =>
    intro cs hsp
    have hc : c = ' ' := hsp c (by simp)
    subst hc
    rw [List.cons_append, splitFilter_cons_space]
    exact ih cs (fun x hx => hsp x (by simp [hx]))

lemma splitFilter_spaces_right : ∀ (sp cs : List Char), (∀ c ∈ sp, c = ' ') →
    (splitOnSpace (cs ++ sp)).filter (fun t => !t.isEmpty) =
      (splitOnSpace cs).filter (fun t => !t.isEmpty) := by
  intro sp
  induction sp with
  | nil => intro cs _; rw [List.append_nil]
  | cons c t ih =>
    intro cs hsp
    have hc : c = ' ' := hsp c (by simp)
    subst hc
    rw [List.append_cons, ih (cs ++ [' ']) (fun x hx => hsp x (by simp [hx])),
      splitFilter_append_space]

lemma mem_collapseRunsAux {p : Char → Bool} {rep : Char} :
    ∀ (cs : List Char) (b : Bool) (c : Char), c ∈ collapseRunsAux p rep b cs →
      c = rep ∨ p c = false := by
  intro cs
  induction cs with
  | nil => intro b c h; simp [collapseRunsAux] at h
  | cons x t ih =>
    intro b c h
    simp only [collapseRunsAux] at h
    cases hpx : p x with
    | true =>
      rw [if_pos hpx] at h
      cases b with
      | true =>
        rw [if_pos rfl] at h
        exact ih true c h
      | false =>
        rw [if_neg (by simp)] at h
        rcases List.mem_cons.mp h with h1 | h1
        · exact Or.inl h1
        · exact ih true c h1
    | false =>
      rw [if_neg (by simp [hpx])] at h
      rcases List.mem_cons.mp h with h1 | h1
      · subst h1
        exact Or.inr hpx
      · exact ih false c h1

lemma mem_collapseRuns_ws_space {l : List Char} {c : Char}
    (h : c ∈ collapseRuns isWSChar ' ' l) (hws : isWSChar c = true) : c = ' ' := by
  rcases mem_collapseRunsAux l false c h with h1 | h1
  · exact h1
  · rw [hws] at h1
    exact absurd h1 (by decide)

lemma splitFilter_dropEdge_space {cs : List Char}
    (hsp : ∀ c ∈ cs, isWSChar c = true → c = ' ') :
    (splitOnSpace (dropEdge isWSChar cs)).filter (fun t => !t.isEmpty) =
      (splitOnSpace cs).filter (fun t => !t.isEmpty) := by
  unfold dropEdge
  have hdecomp : cs = cs.takeWhile isWSChar ++ cs.dropWhile isWSChar :=
    (List.takeWhile_append_dropWhile isWSChar cs).symm
  have hleft : ∀ c ∈ cs.takeWhile isWSChar, c = ' ' := by
    intro c hc
    exact hsp c ((List.takeWhile_sublist isWSChar).subset hc) (List.mem_takeWhile_imp hc)
  have hu : ∀ c ∈ cs.dropWhile isWSChar, isWSChar c = true → c = ' ' := by
    intro c hc hw
    exact hsp c ((List.dropWhile_sublist isWSChar).subset hc) hw
  conv_rhs => rw [hdecomp]
  rw [splitFilter_spaces_left (cs.takeWhile isWSChar) (cs.dropWhile isWSChar) hleft]
  have hdecomp2 : cs.dropWhile isWSChar =
      ((cs.dropWhile isWSChar).reverse.dropWhile isWSChar).reverse ++
        ((cs.dropWhile isWSChar).reverse.takeWhile isWSChar).reverse := by
    rw [← List.reverse_append, List.takeWhile_append_dropWhile, List.reverse_reverse]
  have hright : ∀ c ∈ ((cs.dropWhile isWSChar).reverse.takeWhile isWSChar).reverse,
      c = ' ' := by
    intro c hc
    rw [List.mem_reverse] at hc
    have hcm : c ∈ cs.dropWhile isWSChar := by
      have := (List.takeWhile_sublist isWSChar).subset hc
      rwa [List.mem_reverse] at this
    exact hu c hcm (List.mem_takeWhile_imp hc)
  conv_rhs => rw [hdecomp2]
  rw [splitFilter_spaces_right
    (((cs.dropWhile isWSChar).reverse.takeWhile isWSChar).reverse)
    (((cs.dropWhile isWSChar).reverse.dropWhile isWSChar).reverse) hright]

/-! ## C8 -/

lemma mapToken_not_proto (env : ProtoEnv) (t : List Char)
    (h : lowerTok t ∉ env.keys) : mapToken env t = specMapToken t := by
  unfold mapToken specMapToken jsGet
  cases h1 : COLOR_FA (lowerTok t) with
  | some fa => rfl
  | none =>
    rw [if_neg h]
    cases h2 : TOKEN_MAP (lowerTok t) with
    | some w => rfl
    | none => rfl

/-- C8 counterexample: the ASCII token `constructor` matches no
authored dictionary key and is not `digits+letter`, yet it does not
pass through unchanged — `COLOR_FA["constructor"]` finds the inherited
(truthy) `Object.prototype.constructor`, which the code returns and
`join` stringifies; in the standard environment,
`prettifyKey("pla_constructor")` therefore differs from the spec-side
pass-through result `PLA constructor`. -/
theorem C8_counterexample :
    "constructor" ∈ stdProtoEnv.keys ∧
    COLOR_FA "constructor" = none ∧
    TOKEN_MAP "constructor" = none ∧
    isDigitLetterTok ("constructor".toList) = false ∧
    mapToken stdProtoEnv ("constructor".toList) ≠ "constructor".toList ∧
    prettifyKey stdProtoEnv "pla_constructor" ≠ synthesizeSpec "pla_constructor" := by
  decide

set_option maxHeartbeats 1600000 in
/-- C8 (amended): the label synthesizer is a total deterministic
function (a Lean function by construction) mapping the empty string to
the empty string; after normalizing separators it maps each
space-separated token by the precedence: authored case-insensitive
color-dictionary match; else, when the lowercased token names an
inherited `Object.prototype` property, the dictionary access yields
that inherited truthy member and the token becomes its engine-defined
string rendering (NOT pass-through); else authored descriptor/polymer
match; else digits+letter uppercased; else unchanged — and the results
are rejoined with single spaces.  On inputs none of whose tokens hit
the prototype chain, the synthesizer agrees with the spec-side pipeline
`synthesizeSpec`. -/
theorem C8_synthesizer_refines_spec :
    (∀ env : ProtoEnv, prettifyKey env "" = "") ∧
    (∀ (env : ProtoEnv) (raw : String),
      (∀ t ∈ specTokens raw, lowerTok t ∉ env.keys) →
      prettifyKey env raw = synthesizeSpec raw) ∧
    (∀ (env : ProtoEnv) (t : List Char) (fa : String),
      COLOR_FA (lowerTok t) = some fa → mapToken env t = fa.toList) ∧
    (∀ (env : ProtoEnv) (t : List Char),
      COLOR_FA (lowerTok t) = none → lowerTok t ∈ env.keys →
      mapToken env t = (env.str (lowerTok t)).toList) ∧
    (∀ (env : ProtoEnv) (t : List Char) (w : String),
      COLOR_FA (lowerTok t) = none → lowerTok t ∉ env.keys →
      TOKEN_MAP (lowerTok t) = some w → mapToken env t = w.toList) ∧
    (∀ (env : ProtoEnv) (t : List Char),
      COLOR_FA (lowerTok t) = none → lowerTok t ∉ env.keys →
      TOKEN_MAP (lowerTok t) = none → isDigitLetterTok t = true →
      mapToken env t = t.map Char.toUpper) ∧
    (∀ (env : ProtoEnv) (t : List Char),
      COLOR_FA (lowerTok t) = none → lowerTok t ∉ env.keys →
      TOKEN_MAP (lowerTok t) = none → isDigitLetterTok t = false →
      mapToken env t = t) := by
  refine ⟨fun env => rfl, ?_, ?_, ?_, ?_, ?_, ?_⟩
  · intro env raw h
    simp only [prettifyKey, synthesizeSpec]
    by_cases he : (dropEdge isWSChar raw.toList).isEmpty = true
    · rw [if_pos he]
      have h0 : dropEdge isWSChar raw.toList = [] := List.isEmpty_iff.mp he
      unfold specTokens normChars
      rw [h0]
      rfl
    · rw [if_neg he]
      have htok : (splitOnSpace (dropEdge isWSChar (normChars raw))).filter
          (fun t => !t.isEmpty) = specTokens raw := by
        unfold specTokens
        exact splitFilter_dropEdge_space
          (fun c hc hwc => mem_collapseRuns_ws_space hc hwc)
      rw [htok]
      have hmap : (specTokens raw).map (mapToken env) =
          (specTokens raw).map specMapToken :=
        List.map_congr_left (fun t ht => mapToken_not_proto env t (h t ht))
      rw [hmap]
  · intro env t fa h
    unfold mapToken jsGet
    rw [h]
  · intro env t h1 h2
    unfold mapToken jsGet
    rw [h1, if_pos h2]
  · intro env t w h1 h2 h3
    unfold mapToken jsGet
    rw [h1, if_neg h2, h3]
  · intro env t h1 h2 h3 h4
    unfold mapToken jsGet
    rw [h1, if_neg h2, h3, if_pos h4]
  · intro env t h1 h2 h3 h4
    unfold mapToken jsGet
    rw [h1, if_neg h2, h3, if_neg (by simp [h4])]

/-- C8 witness: the amended theorem applied at concrete inputs — the
refinement at a raw id whose tokens avoid the prototype chain, the
color precedence at a concrete token, and the prototype-hit clause at
`constructor`. -/
theorem C8_witness :
    prettifyKey stdProtoEnv "pla_black" = synthesizeSpec "pla_black" ∧
    mapToken stdProtoEnv ("Black".toList) = "مشکی".toList ∧
    mapToken stdProtoEnv ("constructor".toList) =
      (stdProtoEnv.str "constructor").toList :=
  ⟨C8_synthesizer_refines_spec.2.1 stdProtoEnv "pla_black" (by decide),
   C8_synthesizer_refines_spec.2.2.1 stdProtoEnv ("Black".toList) "مشکی" (by decide),
   C8_synthesizer_refines_spec.2.2.2.1 stdProtoEnv ("constructor".toList)
     (by decide) (by decide)⟩
